import Mathlib

/-!
Verification development for the Street Run endless-runner game.

The definitions below are shallow embeddings of the game's JavaScript
source (Obstacles.js, Coins.js, Player.js, GameCanvas.js): JS numbers are
modelled as exact rationals, `Math.random()` draws are modelled as oracle
functions consumed by an explicit counter, and the timer-driven animation
sequencer is modelled as an explicit transition system whose pending
`setTimeout` completion steps are part of the state.
-/

namespace StreetRun

/-! ## Constants from Obstacles.js -/

/-- Obstacles.js line 6: `LANE_OFFSETS = [-3, 1, 5]`. -/
def LANE_OFFSETS : List ℚ := [-3, 1, 5]

/-- Obstacles.js line 7: `MAX_BARRIERS = 10`. -/
def MAX_BARRIERS : Nat := 10

/-- Obstacles.js line 8: `MIN_BARRIER_SPACING = 25`. -/
def MIN_BARRIER_SPACING : ℤ := 25

/-- Obstacles.js line 12: `barrierState.lastBarrierZ` initial value `-40`. -/
def initialLastBarrierZ : ℤ := -40

/-! ## Barrier spawn-Z sequence (Obstacles.js `initObstacles` /
`updateObstacles` recycle branch)

`initSpawns n c` is the list of Z values at which `initObstacles` places
`n` barriers starting from cursor `c`: each barrier is placed *at* the
cursor (line 36) and then the cursor is decremented by the spacing
(line 53).

`recycleSpawns n c` is the list of Z values assigned by `n` successive
recycles in `updateObstacles` starting from cursor `c`: a recycled barrier
is placed at `cursor - MIN_BARRIER_SPACING` (line 86) and then the cursor
is decremented by the spacing (line 87). -/

def initSpawns : Nat → ℤ → List ℤ
  | 0, _ => []
  | n + 1, c => c :: initSpawns n (c - MIN_BARRIER_SPACING)

def recycleSpawns : Nat → ℤ → List ℤ
  | 0, _ => []
  | n + 1, c => (c - MIN_BARRIER_SPACING) :: recycleSpawns n (c - MIN_BARRIER_SPACING)

/-- Cursor value after `initObstacles` has placed all `MAX_BARRIERS`
barriers (also re-imposed by GameCanvas.js line 438:
`lastBarrierZ = -40 - barriers.length * MIN_BARRIER_SPACING`). -/
def cursorAfterInit : ℤ := initialLastBarrierZ - (MAX_BARRIERS : ℤ) * MIN_BARRIER_SPACING

/-- The full sequence of barrier spawn Z values: the initial placements by
`initObstacles` followed by `n` recycles in `updateObstacles`. -/
def spawnSeq (n : Nat) : List ℤ :=
  initSpawns MAX_BARRIERS initialLastBarrierZ ++ recycleSpawns n cursorAfterInit

/-- Successive cursor values (`barrierState.lastBarrierZ`) over the whole
history: the cursor starts at `-40` and each placement (initial or
recycle) decrements it by `MIN_BARRIER_SPACING`. -/
def cursorAt (k : Nat) : ℤ := initialLastBarrierZ - (k : ℤ) * MIN_BARRIER_SPACING

lemma chain'_initSpawns (n : Nat) (c : ℤ) :
    List.Chain' (fun a b => a - b = MIN_BARRIER_SPACING) (initSpawns n c) := by
  induction n generalizing c with
  | zero => simp [initSpawns]
  | succ m ih =>
    cases m with
    | zero => simp [initSpawns]
    | succ k =>
      refine List.Chain'.cons ?_ (ih (c - MIN_BARRIER_SPACING))
      · simp [initSpawns]

lemma chain'_recycleSpawns (n : Nat) (c : ℤ) :
    List.Chain' (fun a b => a - b = MIN_BARRIER_SPACING) (recycleSpawns n c) := by
  induction n generalizing c with
  | zero => simp [recycleSpawns]
  | succ m ih =>
    cases m with
    | zero => simp [recycleSpawns]
    | succ k =>
      refine List.Chain'.cons ?_ (ih (c - MIN_BARRIER_SPACING))
      · simp [recycleSpawns]

lemma initSpawns_getLast_concrete :
    (initSpawns MAX_BARRIERS initialLastBarrierZ).getLast? = some (-265) := by
  decide

lemma chain'_gt_spawnSeq (n : Nat) : List.Chain' (fun a b => b < a) (spawnSeq n) := by
  have himp : ∀ {l : List ℤ}, List.Chain' (fun a b => a - b = MIN_BARRIER_SPACING) l →
      List.Chain' (fun a b : ℤ => b < a) l := by
    intro l h
    refine h.imp ?_
    intro a b hab
    have : (0 : ℤ) < MIN_BARRIER_SPACING := by decide
    omega
  rw [spawnSeq, List.chain'_append]
  refine ⟨himp (chain'_initSpawns _ _), himp (chain'_recycleSpawns _ _), ?_⟩
  intro x hx y hy
  rw [initSpawns_getLast_concrete] at hx
  have hx' : x = -265 := by simpa [eq_comm] using hx
  cases n with
  | zero => simp [recycleSpawns] at hy
  | succ m =>
    have hy' : y = cursorAfterInit - MIN_BARRIER_SPACING := by
      simpa [recycleSpawns, eq_comm] using hy
    rw [hx', hy']
    decide

/-- C1: the claim as stated is false. With the 10 initial placements by
`initObstacles` followed by a single recycle in `updateObstacles`, the
spawn-Z sequence is `[-40, -65, ..., -265, -315]`: the step from the last
initial placement (`-265`) to the first recycled placement (`-315`) is
`50 = 2 * MIN_BARRIER_SPACING`, not `MIN_BARRIER_SPACING`, because the
recycle branch places the barrier at `lastBarrierZ - MIN_BARRIER_SPACING`
rather than at `lastBarrierZ`. -/
theorem barrier_spacing_claim_false :
    ¬ List.Chain' (fun a b => a - b = MIN_BARRIER_SPACING) (spawnSeq 1) := by
  have hseq : spawnSeq 1 =
      [-40, -65, -90, -115, -140, -165, -190, -215, -240, -265, -315] := by decide
  rw [hseq]
  simp only [List.chain'_cons, List.chain'_singleton, MIN_BARRIER_SPACING, and_true]
  intro h
  omega

/-- C1 (amended): consecutive spawn Z-values differ by exactly
`MIN_BARRIER_SPACING` within the initial placements and within the
recycled placements, while the first recycled placement lies
`2 * MIN_BARRIER_SPACING` below the last initial placement; the shared
cursor `barrierState.lastBarrierZ` is strictly monotonically decreasing,
and the spawn Z-values are strictly decreasing, hence pairwise distinct,
so no two barriers share a Z-slot at creation time. -/
theorem barrier_spacing_amended (n : Nat) :
    List.Chain' (fun a b => a - b = MIN_BARRIER_SPACING)
      (initSpawns MAX_BARRIERS initialLastBarrierZ)
    ∧ List.Chain' (fun a b => a - b = MIN_BARRIER_SPACING)
      (recycleSpawns n cursorAfterInit)
    ∧ (initSpawns MAX_BARRIERS initialLastBarrierZ).getLast? =
        some (cursorAfterInit + MIN_BARRIER_SPACING)
    ∧ (recycleSpawns (n + 1) cursorAfterInit).head? =
        some (cursorAfterInit - MIN_BARRIER_SPACING)
    ∧ List.Chain' (fun a b => b < a) (spawnSeq n)
    ∧ List.Pairwise (fun a b => a ≠ b) (spawnSeq n)
    ∧ (∀ j k : Nat, j < k → cursorAt k < cursorAt j) := by
  refine ⟨chain'_initSpawns _ _, chain'_recycleSpawns _ _, ?_, ?_, chain'_gt_spawnSeq n, ?_, ?_⟩
  · rw [initSpawns_getLast_concrete]
    decide
  · simp [recycleSpawns]
  · have h := chain'_gt_spawnSeq n
    have hp : List.Pairwise (fun a b : ℤ => b < a) (spawnSeq n) :=
      List.chain'_iff_pairwise.mp h
    exact hp.imp fun hab => (ne_of_gt hab)
  · intro j k hjk
    have hs : (0 : ℤ) < MIN_BARRIER_SPACING := by decide
    simp only [cursorAt]
    have : (j : ℤ) < (k : ℤ) := by exact_mod_cast hjk
    nlinarith

/-- C1 witness: the amended spacing theorem applied at one recycle, with
the cursor-decrease hypothesis discharged at placements 0 and 1. -/
theorem barrier_spacing_amended_witness :
    (0 : Nat) < 1 ∧ cursorAt 1 < cursorAt 0 :=
  ⟨by decide, (barrier_spacing_amended 1).2.2.2.2.2.2 0 1 (by decide)⟩

/-! ## Geometry: THREE.Vector3 / THREE.Box3 -/

/-- A three.js `Vector3` position, with JS numbers modelled as exact
rationals. -/
structure Vec3 where
  x : ℚ
  y : ℚ
  z : ℚ
deriving DecidableEq

/-- A three.js `Box3` axis-aligned bounding box. -/
structure Box3 where
  min : Vec3
  max : Vec3
deriving DecidableEq

/-- three.js `Box3.intersectsBox`: the boxes are disjoint iff some axis
separates them strictly (`box.max.x < this.min.x || box.min.x > this.max.x
|| ...`), else they intersect (closed-box semantics). -/
def intersectsBox (a b : Box3) : Bool :=
  !(decide (b.max.x < a.min.x) || decide (b.min.x > a.max.x) ||
    decide (b.max.y < a.min.y) || decide (b.min.y > a.max.y) ||
    decide (b.max.z < a.min.z) || decide (b.min.z > a.max.z))

/-- The player hitbox from Obstacles.js lines 93-105: width `±0.5`,
height `1.5` above the feet, depth `±0.5`. -/
def playerBox (p : Vec3) : Box3 :=
  ⟨⟨p.x - 1/2, p.y, p.z - 1/2⟩, ⟨p.x + 1/2, p.y + 3/2, p.z + 1/2⟩⟩

/-- The barrier hitbox from Obstacles.js lines 108-120: X range
`[x - 1, x + 0.5]`, height `0.5`, Z range `[z - 1, z + 0.7]`. -/
def barrierBox (b : Vec3) : Box3 :=
  ⟨⟨b.x - 1, b.y, b.z - 1⟩, ⟨b.x + 1/2, b.y + 1/2, b.z + 7/10⟩⟩

/-! ## GameState (GameCanvas.js `defaultGameState`, lines 52-64) -/

structure GameState where
  speed : ℚ
  maxSpeed : ℚ
  gravity : ℚ
  score : ℚ
  coinCount : ℕ
  multiplier : ℚ
  currentLane : ℤ
  laneDistance : ℚ
  active : Bool
  maxCoins : ℕ
  isSliding : Bool
deriving DecidableEq

def defaultGameState : GameState :=
  { speed := 3/10, maxSpeed := 1/2, gravity := -20, score := 0, coinCount := 0,
    multiplier := 1, currentLane := 0, laneDistance := 4, active := true,
    maxCoins := 5, isSliding := false }

/-! ## Obstacles.js `updateObstacles`

`Math.floor(Math.random() * LANE_OFFSETS.length)` draws are modelled by an
oracle `rand : ℕ → Fin 3` consumed through an explicit counter; the
`forEach` body (move, recycle with shared-cursor update, collision test
invoking `onCollision`) is a structural recursion threading the cursor,
the oracle counter, and the number of `onCollision` invocations. -/

def laneOffset (i : Fin 3) : ℚ := LANE_OFFSETS.get (Fin.cast (by decide) i)

/-- One barrier's movement/recycle step (Obstacles.js lines 80-88):
`z += speed`; if `z > 10` then reassign a random lane X and set
`z := lastBarrierZ - MIN_BARRIER_SPACING`, decrementing the shared cursor.
Returns the new barrier position, the new cursor, and the new oracle
counter. -/
def stepBarrier (rand : ℕ → Fin 3) (speed2 : ℚ) (b : Vec3) (cursor : ℚ) (ri : ℕ) :
    Vec3 × ℚ × ℕ :=
  let b1 : Vec3 := { b with z := b.z + speed2 }
  if b1.z > 10 then
    (⟨laneOffset (rand ri), b1.y, cursor - (MIN_BARRIER_SPACING : ℚ)⟩,
      cursor - (MIN_BARRIER_SPACING : ℚ), ri + 1)
  else
    (b1, cursor, ri)

/-- The `barriers.forEach` loop of `updateObstacles` (lines 78-130):
returns the updated barrier list, the final cursor, the final oracle
counter, and the total number of `onCollision` invocations. -/
def updateObstaclesAux (rand : ℕ → Fin 3) (speed2 : ℚ) (player : Vec3) :
    List Vec3 → ℚ → ℕ → ℕ → List Vec3 × ℚ × ℕ × ℕ
  | [], cursor, ri, hits => ([], cursor, ri, hits)
  | b :: rest, cursor, ri, hits =>
    let s := stepBarrier rand speed2 b cursor ri
    let hits2 := if intersectsBox (playerBox player) (barrierBox s.1) then hits + 1 else hits
    let r := updateObstaclesAux rand speed2 player rest s.2.1 s.2.2 hits2
    (s.1 :: r.1, r.2)

structure ObstaclesResult where
  barriers : List Vec3
  lastBarrierZ : ℚ
  randIdx : ℕ
  collisions : ℕ
deriving DecidableEq

/-- Obstacles.js `updateObstacles` (lines 70-131): a silent no-op when the
player is not initialized (lines 71-74), otherwise the `forEach` loop at
`speed = gameState.speed * 2`. -/
def updateObstacles (rand : ℕ → Fin 3) (player : Option Vec3) (gameState : GameState)
    (barriers : List Vec3) (lastBarrierZ : ℚ) : ObstaclesResult :=
  match player with
  | none => ⟨barriers, lastBarrierZ, 0, 0⟩
  | some p =>
    let r := updateObstaclesAux rand (gameState.speed * 2) p barriers lastBarrierZ 0 0
    ⟨r.1, r.2.1, r.2.2.1, r.2.2.2⟩

/-- The movement/recycle part of the loop alone, with no collision
testing: used to state that collisions neither remove barriers nor change
their positions. -/
def moveBarriers (rand : ℕ → Fin 3) (speed2 : ℚ) :
    List Vec3 → ℚ → ℕ → List Vec3
  | [], _, _ => []
  | b :: rest, cursor, ri =>
    let s := stepBarrier rand speed2 b cursor ri
    s.1 :: moveBarriers rand speed2 rest s.2.1 s.2.2

/-- The orchestrator's obstacle step in the `animate` loop
(GameCanvas.js lines 470-475): `onCollision` sets `active := false`, so
after the tick `active` is false iff a collision fired or the game was
already over. -/
def animateObstaclesTick (rand : ℕ → Fin 3) (player : Option Vec3) (gs : GameState)
    (barriers : List Vec3) (cursor : ℚ) : ObstaclesResult × GameState :=
  let r := updateObstacles rand player gs barriers cursor
  (r, if r.collisions > 0 then { gs with active := false } else gs)

/-! ## Coins.js `updateCoins`

The player-coin boxes come from `Box3().setFromObject`, which reads mesh
geometry outside the model, so the intersection test is abstracted as a
`collide` oracle over the player and coin positions; the two
`Math.random()` draws of a coin reposition are modelled by the oracles
`laneR` (lane pick) and `zR` (the raw `Math.random()` draw scaled by 50),
consumed through a counter. -/

/-- A coin reposition (Coins.js: `(Math.floor(Math.random()*3)-1)*4`,
height `1.2`, `z = -50 - Math.random()*50`), used both by the
out-of-view recycle and by the collection recycle. -/
def recycledCoinPos (laneR : ℕ → Fin 3) (zR : ℕ → ℚ) (i : ℕ) : Vec3 :=
  ⟨(((laneR i : ℕ) : ℚ) - 1) * 4, 6/5, -50 - zR i * 50⟩

/-- The `coins.forEach` loop of `updateCoins` (Coins.js lines 707-753):
move forward by `speed*2`; recycle when `z > 10`; on player-coin
collision increment `gameState.coinCount`, invoke `updateUI`, and recycle
the coin in place. Returns the updated coin list, game state, number of
`updateUI` invocations, and the oracle counter. -/
def updateCoinsAux (collide : Vec3 → Vec3 → Bool) (laneR : ℕ → Fin 3) (zR : ℕ → ℚ)
    (player : Vec3) (speed2 : ℚ) :
    List Vec3 → GameState → ℕ → ℕ → List Vec3 × GameState × ℕ × ℕ
  | [], gs, ui, ri => ([], gs, ui, ri)
  | c :: rest, gs, ui, ri =>
    let c1 : Vec3 := { c with z := c.z + speed2 }
    let s1 := if c1.z > 10 then (recycledCoinPos laneR zR ri, ri + 1) else (c1, ri)
    let s2 :=
      if collide player s1.1 then
        (recycledCoinPos laneR zR s1.2,
          { gs with coinCount := gs.coinCount + 1 }, ui + 1, s1.2 + 1)
      else (s1.1, gs, ui, s1.2)
    let r := updateCoinsAux collide laneR zR player speed2 rest s2.2.1 s2.2.2.1 s2.2.2.2
    (s2.1 :: r.1, r.2)

structure CoinsResult where
  coins : List Vec3
  gameState : GameState
  uiCalls : ℕ
  randIdx : ℕ
deriving DecidableEq

/-- Coins.js `updateCoins` (lines 701-754): a silent no-op when the player
is not initialized (lines 702-705), otherwise the `forEach` loop at
`speed = gameState.speed * 2`. -/
def updateCoins (collide : Vec3 → Vec3 → Bool) (laneR : ℕ → Fin 3) (zR : ℕ → ℚ)
    (player : Option Vec3) (gs : GameState) (coins : List Vec3) (ri : ℕ) : CoinsResult :=
  match player with
  | none => ⟨coins, gs, 0, ri⟩
  | some p =>
    let r := updateCoinsAux collide laneR zR p (gs.speed * 2) coins gs 0 ri
    ⟨r.1, r.2.1, r.2.2.1, r.2.2.2⟩

/-- Successive `updateCoins` calls, threading the coin pool, the game
state and the oracle counter from frame to frame. -/
def updateCoinsCalls (collide : Vec3 → Vec3 → Bool) (laneR : ℕ → Fin 3) (zR : ℕ → ℚ)
    (player : Option Vec3) : ℕ → GameState → List Vec3 → ℕ → CoinsResult
  | 0, gs, coins, ri => ⟨coins, gs, 0, ri⟩
  | n + 1, gs, coins, ri =>
    let r := updateCoins collide laneR zR player gs coins ri
    updateCoinsCalls collide laneR zR player n r.gameState r.coins r.randIdx

lemma updateObstaclesAux_barriers (rand : ℕ → Fin 3) (s : ℚ) (p : Vec3) (l : List Vec3) :
    ∀ (c : ℚ) (ri h : ℕ),
      (updateObstaclesAux rand s p l c ri h).1 = moveBarriers rand s l c ri := by
  induction l with
  | nil => intro c ri h; rfl
  | cons b rest ih =>
    intro c ri h
    simp only [updateObstaclesAux, moveBarriers]
    rw [ih]

lemma updateObstaclesAux_hits (rand : ℕ → Fin 3) (s : ℚ) (p : Vec3) (l : List Vec3) :
    ∀ (c : ℚ) (ri h : ℕ),
      (updateObstaclesAux rand s p l c ri h).2.2.2 =
        h + List.countP (fun b => intersectsBox (playerBox p) (barrierBox b))
          (moveBarriers rand s l c ri) := by
  induction l with
  | nil => intro c ri h; simp [updateObstaclesAux, moveBarriers]
  | cons b rest ih =>
    intro c ri h
    simp only [updateObstaclesAux, moveBarriers, List.countP_cons]
    rw [ih]
    by_cases hc : intersectsBox (playerBox p) (barrierBox (stepBarrier rand s b c ri).1) = true
    · simp [hc]
      omega
    · simp [hc]

lemma moveBarriers_length (rand : ℕ → Fin 3) (s : ℚ) (l : List Vec3) :
    ∀ (c : ℚ) (ri : ℕ), (moveBarriers rand s l c ri).length = l.length := by
  induction l with
  | nil => intro c ri; rfl
  | cons b rest ih => intro c ri; simp only [moveBarriers, List.length_cons]; rw [ih]

/-- C3: in one `updateObstacles` call the barrier pool keeps its size,
the output barrier positions are exactly those produced by the
movement/recycle logic alone (the collision test removes or consumes
nothing and never changes a position), and `onCollision` is invoked
exactly once per intersecting barrier — `k` simultaneously intersecting
barriers produce exactly `k` invocations. In the concrete scenario of the
player at lane 0 and a lane-0 barrier with matching z, `onCollision`
fires exactly once and `gameState.active` becomes false in the same
tick. -/
theorem obstacle_collisions_exact (rand : ℕ → Fin 3) (p : Vec3) (gs : GameState)
    (barriers : List Vec3) (cursor : ℚ) :
    ((updateObstacles rand (some p) gs barriers cursor).barriers.length = barriers.length)
    ∧ ((updateObstacles rand (some p) gs barriers cursor).barriers =
        moveBarriers rand (gs.speed * 2) barriers cursor 0)
    ∧ ((updateObstacles rand (some p) gs barriers cursor).collisions =
        List.countP (fun b => intersectsBox (playerBox p) (barrierBox b))
          ((updateObstacles rand (some p) gs barriers cursor).barriers))
    ∧ (animateObstaclesTick (fun _ => 0) (some ⟨0, 0, 0⟩) defaultGameState
        [⟨1, 1/2, 0⟩] (-290) =
      (⟨[⟨1, 1/2, 3/5⟩], -290, 0, 1⟩, { defaultGameState with active := false })) := by
  refine ⟨?_, ?_, ?_, ?_⟩
  · simp only [updateObstacles, updateObstaclesAux_barriers]
    exact moveBarriers_length _ _ _ _ _
  · simp only [updateObstacles, updateObstaclesAux_barriers]
  · simp only [updateObstacles, updateObstaclesAux_barriers, updateObstaclesAux_hits]
    omega
  · simp only [animateObstaclesTick, updateObstacles, updateObstaclesAux, stepBarrier,
      intersectsBox, playerBox, barrierBox, defaultGameState]
    norm_num

lemma updateCoinsAux_length (collide : Vec3 → Vec3 → Bool) (laneR : ℕ → Fin 3)
    (zR : ℕ → ℚ) (p : Vec3) (s : ℚ) (l : List Vec3) :
    ∀ (gs : GameState) (ui ri : ℕ),
      (updateCoinsAux collide laneR zR p s l gs ui ri).1.length = l.length := by
  induction l with
  | nil => intro gs ui ri; rfl
  | cons c rest ih =>
    intro gs ui ri
    simp only [updateCoinsAux, List.length_cons]
    rw [ih]

/-- C7: the coin pool size is invariant under any number of
`updateCoins` calls and any number of collection events: collection
recycles a coin in place (repositions it) and never removes it from the
pool, for every collision oracle, randomness oracle, player and game
state. -/
theorem coin_pool_size_invariant (collide : Vec3 → Vec3 → Bool) (laneR : ℕ → Fin 3)
    (zR : ℕ → ℚ) (player : Option Vec3) (n : ℕ) (gs : GameState) (coins : List Vec3)
    (ri : ℕ) :
    (updateCoinsCalls collide laneR zR player n gs coins ri).coins.length =
      coins.length := by
  induction n generalizing gs coins ri with
  | zero => rfl
  | succ m ih =>
    simp only [updateCoinsCalls]
    rw [ih]
    cases player with
    | none => rfl
    | some p => exact updateCoinsAux_length _ _ _ _ _ _ _ _ _

/-- C9: called before the player entity exists, both `updateObstacles`
and `updateCoins` are silent no-ops: barrier and coin positions, the
spacing cursor and the game state are unchanged, and no `onCollision` or
`updateUI` callback is invoked. -/
theorem update_noop_without_player (rand : ℕ → Fin 3) (gs : GameState)
    (barriers : List Vec3) (cursor : ℚ) (collide : Vec3 → Vec3 → Bool)
    (laneR : ℕ → Fin 3) (zR : ℕ → ℚ) (coins : List Vec3) (ri : ℕ) :
    updateObstacles rand none gs barriers cursor = ⟨barriers, cursor, 0, 0⟩
    ∧ (animateObstaclesTick rand none gs barriers cursor).2 = gs
    ∧ updateCoins collide laneR zR none gs coins ri = ⟨coins, gs, 0, ri⟩ := by
  exact ⟨rfl, rfl, rfl⟩

/-- C10: each obstacle lane X-offset equals the corresponding player lane
target `currentLane * laneDistance` shifted by `+1`, and thanks to the
asymmetric barrier hitbox (`[x-1, x+0.5]` in X) a player settled at
`x = 4*(i-1)`, `y = 0` intersects a barrier in lane slot `i` at matching
z, in all three lanes. -/
theorem lane_offsets_alignment (z : ℚ) (i : Fin 3) :
    laneOffset i = (((i : ℕ) : ℚ) - 1) * defaultGameState.laneDistance + 1
    ∧ intersectsBox
        (playerBox ⟨(((i : ℕ) : ℚ) - 1) * defaultGameState.laneDistance, 0, z⟩)
        (barrierBox ⟨laneOffset i, 1/2, z⟩) = true := by
  fin_cases i <;>
    refine ⟨by norm_num [laneOffset, LANE_OFFSETS, defaultGameState], ?_⟩ <;>
    · simp only [intersectsBox, playerBox, barrierBox, laneOffset, LANE_OFFSETS,
        defaultGameState]
      norm_num
      exact ⟨by linarith, by linarith⟩

/-! ## Player.js `playerUpdate`: lane movement smoothing -/

/-- One tick of lane movement (Player.js lines 1029-1030):
`targetX = currentLane * laneDistance; x += (targetX - x) * 0.1`. -/
def laneStep (targetX x : ℚ) : ℚ := x + (targetX - x) * (1/10)

/-- The fixed lane target `currentLane * laneDistance`. -/
def targetLaneX (gs : GameState) : ℚ := (gs.currentLane : ℚ) * gs.laneDistance

/-- C5: after `N` ticks with fixed target, the signed distance to the
target is scaled by exactly `0.9^N` (so the absolute distance decays
geometrically), and the sign of `targetX - x` is preserved: the player
never overshoots the target. -/
theorem lane_convergence_geometric (t x0 : ℚ) (N : ℕ) :
    (laneStep t)^[N] x0 - t = (x0 - t) * (9/10) ^ N
    ∧ |(laneStep t)^[N] x0 - t| = |x0 - t| * (9/10) ^ N
    ∧ 0 ≤ (t - (laneStep t)^[N] x0) * (t - x0) := by
  have key : ∀ n : ℕ, (laneStep t)^[n] x0 - t = (x0 - t) * (9/10) ^ n := by
    intro n
    induction n with
    | zero => simp
    | succ m ih =>
      have hstep : laneStep t ((laneStep t)^[m] x0) - t =
          ((laneStep t)^[m] x0 - t) * (9/10) := by
        simp only [laneStep]
        ring
      rw [Function.iterate_succ_apply', hstep, ih]
      ring
  refine ⟨key N, ?_, ?_⟩
  · rw [key N, abs_mul, abs_pow]
    congr 1
    rw [abs_of_pos]
    norm_num
  · have h2 : t - (laneStep t)^[N] x0 = (t - x0) * (9/10) ^ N := by
      linear_combination -(key N)
    rw [h2]
    have h3 : (t - x0) * (9/10) ^ N * (t - x0) = (t - x0) ^ 2 * (9/10) ^ N := by ring
    rw [h3]
    positivity

/-! ## Lane intents (GameCanvas.js `handleKeyDown` / `onDrag`) -/

inductive GameKey
  | arrowLeft
  | arrowRight
  | arrowUp
  | arrowDown
  | other
deriving DecidableEq

/-- GameCanvas.js `handleKeyDown` (lines 280-297), lane part: ignores all
keys while the game is inactive; ArrowLeft maps `currentLane` to
`max(currentLane - 1, -1)`, ArrowRight to `min(currentLane + 1, 1)`. -/
def handleKeyDownLane (active : Bool) (k : GameKey) (currentLane : ℤ) : ℤ :=
  if active then
    match k with
    | .arrowLeft => max (currentLane - 1) (-1)
    | .arrowRight => min (currentLane + 1) 1
    | _ => currentLane
  else currentLane

/-- GameCanvas.js `onDrag` (lines 224-244), horizontal-swipe lane part: a
dominant horizontal swipe past the 10 px threshold with `dx > 0` maps
`currentLane` to `min(currentLane + 1, 1)`, with `dx < 0` to
`max(currentLane - 1, -1)`. -/
def onDragLane (mx my dx : ℚ) (currentLane : ℤ) : ℤ :=
  if |mx| > 10 ∧ |mx| > |my| then
    if dx > 0 then min (currentLane + 1) 1
    else if dx < 0 then max (currentLane - 1) (-1)
    else currentLane
  else currentLane

inductive LaneEvent
  | key (active : Bool) (k : GameKey)
  | drag (mx my dx : ℚ)

def applyLaneEvent (l : ℤ) : LaneEvent → ℤ
  | .key a k => handleKeyDownLane a k l
  | .drag mx my dx => onDragLane mx my dx l

/-- The lane after a sequence of input events, starting from
`defaultGameState.currentLane = 0`. -/
def runLaneEvents (es : List LaneEvent) : ℤ :=
  es.foldl applyLaneEvent defaultGameState.currentLane

lemma applyLaneEvent_mem (l : ℤ) (e : LaneEvent) (h1 : -1 ≤ l) (h2 : l ≤ 1) :
    -1 ≤ applyLaneEvent l e ∧ applyLaneEvent l e ≤ 1 := by
  cases e with
  | key a k =>
    cases a <;> cases k <;> simp [applyLaneEvent, handleKeyDownLane] <;> omega
  | drag mx my dx =>
    simp only [applyLaneEvent, onDragLane]
    split_ifs <;> omega

lemma foldl_applyLaneEvent_mem (es : List LaneEvent) :
    ∀ l : ℤ, -1 ≤ l → l ≤ 1 →
      -1 ≤ es.foldl applyLaneEvent l ∧ es.foldl applyLaneEvent l ≤ 1 := by
  induction es with
  | nil => intro l h1 h2; exact ⟨h1, h2⟩
  | cons e rest ih =>
    intro l h1 h2
    have := applyLaneEvent_mem l e h1 h2
    exact ih (applyLaneEvent l e) this.1 this.2

/-- C6: every left/right lane intent (keyboard or swipe) clamps
`currentLane` into `[-1, 1]`, so from any lane already in range the lane
stays in range, and from the initial lane 0 every sequence of input
events keeps `currentLane` in `{-1, 0, 1}`. -/
theorem currentLane_clamped :
    (∀ (l : ℤ) (e : LaneEvent), -1 ≤ l → l ≤ 1 →
      -1 ≤ applyLaneEvent l e ∧ applyLaneEvent l e ≤ 1)
    ∧ (∀ es : List LaneEvent, -1 ≤ runLaneEvents es ∧ runLaneEvents es ≤ 1) := by
  refine ⟨applyLaneEvent_mem, ?_⟩
  intro es
  exact foldl_applyLaneEvent_mem es 0 (by decide) (by decide)

/-- C6 witness: the clamping theorem applied at lane 0 with an
ArrowLeft key press in the active state. -/
theorem currentLane_clamped_witness :
    (-1 ≤ (0 : ℤ)) ∧ ((0 : ℤ) ≤ 1) ∧
      (-1 ≤ applyLaneEvent 0 (.key true .arrowLeft)
        ∧ applyLaneEvent 0 (.key true .arrowLeft) ≤ 1) :=
  ⟨by decide, by decide,
    currentLane_clamped.1 0 (.key true .arrowLeft) (by decide) (by decide)⟩

/-! ## Jump physics (GameCanvas.js `updatePlayer`, lines 335-355) -/

inductive AnimName
  | run
  | jump
  | roll
deriving DecidableEq

structure PlayerJumpState where
  y : ℚ
  velocityY : ℚ
  isJumping : Bool
  anim : AnimName
deriving DecidableEq

/-- GameCanvas.js `updatePlayer`: while jumping, first
`y += velocityY * delta` (line 341), then `velocityY += gravity * delta`
(line 344); if the new `y ≤ 0` (line 347), snap `y := 0`, clear the
jumping flag, reset the velocity to 0, and revert to the run animation. -/
def updatePlayer (gravity delta : ℚ) (s : PlayerJumpState) : PlayerJumpState :=
  if s.isJumping then
    let y1 := s.y + s.velocityY * delta
    let v1 := s.velocityY + gravity * delta
    if y1 ≤ 0 then ⟨0, 0, false, .run⟩
    else ⟨y1, v1, true, s.anim⟩
  else s

/-- Closed form for the height after `k` airborne ticks of `updatePlayer`
started at `y = 0` with upward velocity `v0`. -/
def jumpY (v0 g δ : ℚ) (k : ℕ) : ℚ :=
  δ * k * (2 * v0 + g * δ * ((k : ℚ) - 1)) / 2

/-- The number of whole airborne ticks before the landing tick:
`⌈(2 v0 / (-g δ))⌉`, i.e. the continuous airtime divided by the tick
length, rounded up. -/
def airborneTicks (v0 g δ : ℚ) : ℕ := (⌈2 * v0 / (-(g * δ))⌉).toNat

lemma updatePlayer_step_airborne (g δ y v : ℚ) (a : AnimName) (h : ¬ y + v * δ ≤ 0) :
    updatePlayer g δ ⟨y, v, true, a⟩ = ⟨y + v * δ, v + g * δ, true, a⟩ := by
  simp [updatePlayer, h]

lemma updatePlayer_step_landing (g δ y v : ℚ) (a : AnimName) (h : y + v * δ ≤ 0) :
    updatePlayer g δ ⟨y, v, true, a⟩ = ⟨0, 0, false, .run⟩ := by
  simp [updatePlayer, h]

lemma airborneTicks_cast (v0 g δ : ℚ) (hv : 0 < v0) (hg : g < 0) (hδ : 0 < δ) :
    ((airborneTicks v0 g δ : ℕ) : ℚ) = ((⌈2 * v0 / (-(g * δ))⌉ : ℤ) : ℚ)
    ∧ 1 ≤ airborneTicks v0 g δ := by
  have hden : (0:ℚ) < -(g * δ) := by nlinarith
  have hr : (0:ℚ) < 2 * v0 / (-(g * δ)) := div_pos (by linarith) hden
  have hceil : 0 < ⌈2 * v0 / (-(g * δ))⌉ := Int.ceil_pos.mpr hr
  constructor
  · simp only [airborneTicks]
    exact_mod_cast congrArg (fun n : ℤ => (n : ℚ)) (Int.toNat_of_nonneg (le_of_lt hceil))
  · simp only [airborneTicks]
    omega

lemma jumpY_succ_eq (v0 g δ : ℚ) (k : ℕ) :
    jumpY v0 g δ k + (v0 + (k : ℚ) * g * δ) * δ = jumpY v0 g δ (k + 1) := by
  simp only [jumpY]
  push_cast
  ring

lemma jumpY_pos (v0 g δ : ℚ) (hv : 0 < v0) (hg : g < 0) (hδ : 0 < δ) (j : ℕ)
    (h1 : 1 ≤ j) (h2 : j ≤ airborneTicks v0 g δ) : 0 < jumpY v0 g δ j := by
  have hden : (0:ℚ) < -(g * δ) := by nlinarith
  have hrm : 2 * v0 / (-(g * δ)) * (-(g * δ)) = 2 * v0 :=
    div_mul_cancel₀ _ (ne_of_gt hden)
  have hcastM := (airborneTicks_cast v0 g δ hv hg hδ).1
  have hjM : ((j : ℕ) : ℚ) ≤ ((airborneTicks v0 g δ : ℕ) : ℚ) := by exact_mod_cast h2
  have hceil : ((⌈2 * v0 / (-(g * δ))⌉ : ℤ) : ℚ) < 2 * v0 / (-(g * δ)) + 1 :=
    Int.ceil_lt_add_one _
  have hlt : ((j : ℕ) : ℚ) - 1 < 2 * v0 / (-(g * δ)) := by
    rw [hcastM] at hjM
    linarith
  have h5 := mul_lt_mul_of_pos_right hlt hden
  rw [hrm] at h5
  have hkey : 0 < 2 * v0 + g * δ * (((j : ℕ) : ℚ) - 1) := by nlinarith
  have hj : (0:ℚ) < ((j : ℕ) : ℚ) := by
    have : (1:ℚ) ≤ ((j : ℕ) : ℚ) := by exact_mod_cast h1
    linarith
  simp only [jumpY]
  exact div_pos (mul_pos (mul_pos hδ hj) hkey) (by norm_num)

lemma iterate_airborne (v0 g δ : ℚ) (a : AnimName)
    (hv : 0 < v0) (hg : g < 0) (hδ : 0 < δ) :
    ∀ k : ℕ, k ≤ airborneTicks v0 g δ →
      (updatePlayer g δ)^[k] ⟨0, v0, true, a⟩ =
        ⟨jumpY v0 g δ k, v0 + (k : ℚ) * g * δ, true, a⟩ := by
  intro k
  induction k with
  | zero =>
    intro _
    simp only [Function.iterate_zero_apply, jumpY]
    norm_num
  | succ m ih =>
    intro hk
    have hm : m ≤ airborneTicks v0 g δ := Nat.le_of_succ_le hk
    rw [Function.iterate_succ_apply', ih hm]
    have hpos : 0 < jumpY v0 g δ (m + 1) :=
      jumpY_pos v0 g δ hv hg hδ (m + 1) (Nat.succ_le_succ (Nat.zero_le m)) hk
    have hne : ¬ jumpY v0 g δ m + (v0 + (m : ℚ) * g * δ) * δ ≤ 0 := by
      rw [jumpY_succ_eq]
      linarith
    rw [updatePlayer_step_airborne g δ _ _ a hne]
    rw [jumpY_succ_eq]
    have : v0 + (m : ℚ) * g * δ + g * δ = v0 + ((m : ℚ) + 1) * g * δ := by ring
    rw [this]
    push_cast
    rfl

/-- C2: the claim as stated is false. With the code's gravity `-20`, the
code's jump impulse `v0 = 8` and a fixed tick `delta = 0.1`, the player
lands (with `y` snapped to 0, the jumping flag cleared, the velocity
reset, and the animation reverted to run) on the 9th tick, for a total
airtime of `0.9`, while the claimed formula `t = -2*v0/gravity` gives
`0.8`: the discrete Euler integration always lands strictly later than
the continuous-time formula. -/
theorem jump_airtime_claim_false :
    ((updatePlayer (-20) (1/10))^[9] ⟨0, 8, true, .jump⟩ = ⟨0, 0, false, .run⟩)
    ∧ (((updatePlayer (-20) (1/10))^[8] ⟨0, 8, true, .jump⟩).isJumping = true)
    ∧ (9 : ℚ) * (1/10) ≠ -2 * 8 / (-20 : ℚ) := by
  refine ⟨?_, ?_, by norm_num⟩ <;>
    · simp only [Function.iterate_succ_apply', Function.iterate_zero_apply]
      norm_num [updatePlayer]

/-- C2 (amended): for every initial upward velocity `v0 > 0`, gravity
`g < 0` and fixed tick `delta > 0`, the jump started from `y = 0` stays
airborne for `airborneTicks = ⌈2*v0/(-g*delta)⌉` whole ticks and on the
following tick returns to `y = 0` snapped to 0, with the jumping flag
cleared, the velocity reset to 0 and the animation reverted to run; the
total airtime `(airborneTicks + 1) * delta` is strictly greater than the
continuous-time formula `t = -2*v0/g` and within `2*delta` of it. -/
theorem jump_round_trip_amended (v0 g δ : ℚ) (a : AnimName)
    (hv : 0 < v0) (hg : g < 0) (hδ : 0 < δ) :
    ((updatePlayer g δ)^[airborneTicks v0 g δ + 1] ⟨0, v0, true, a⟩ =
      ⟨0, 0, false, .run⟩)
    ∧ (∀ k : ℕ, 1 ≤ k → k ≤ airborneTicks v0 g δ →
        ((updatePlayer g δ)^[k] ⟨0, v0, true, a⟩).isJumping = true)
    ∧ -2 * v0 / g < ((airborneTicks v0 g δ + 1 : ℕ) : ℚ) * δ
    ∧ ((airborneTicks v0 g δ + 1 : ℕ) : ℚ) * δ < -2 * v0 / g + 2 * δ := by
  have hden : (0:ℚ) < -(g * δ) := by nlinarith
  have hrm : 2 * v0 / (-(g * δ)) * (-(g * δ)) = 2 * v0 :=
    div_mul_cancel₀ _ (ne_of_gt hden)
  have hcastM := (airborneTicks_cast v0 g δ hv hg hδ).1
  have hMger : 2 * v0 / (-(g * δ)) ≤ ((airborneTicks v0 g δ : ℕ) : ℚ) := by
    rw [hcastM]
    exact_mod_cast Int.le_ceil _
  have hMltr : ((airborneTicks v0 g δ : ℕ) : ℚ) < 2 * v0 / (-(g * δ)) + 1 := by
    rw [hcastM]
    exact_mod_cast Int.ceil_lt_add_one _
  have ht : 2 * v0 / (-(g * δ)) * δ = -2 * v0 / g := by
    have hgne : g ≠ 0 := ne_of_lt hg
    have hδne : δ ≠ 0 := ne_of_gt hδ
    field_simp
    ring
  refine ⟨?_, ?_, ?_, ?_⟩
  · rw [Function.iterate_succ_apply',
      iterate_airborne v0 g δ a hv hg hδ (airborneTicks v0 g δ) le_rfl]
    apply updatePlayer_step_landing
    rw [jumpY_succ_eq]
    have h5 := mul_le_mul_of_nonneg_right hMger (le_of_lt hden)
    rw [hrm] at h5
    have hw : 2 * v0 + g * δ * ((airborneTicks v0 g δ : ℚ)) ≤ 0 := by nlinarith
    have hM1 : (0:ℚ) < ((airborneTicks v0 g δ : ℕ) : ℚ) + 1 := by positivity
    simp only [jumpY]
    push_cast
    have hfac : (0:ℚ) ≤ δ * (((airborneTicks v0 g δ : ℕ) : ℚ) + 1) := by positivity
    nlinarith
  · intro k hk1 hk2
    rw [iterate_airborne v0 g δ a hv hg hδ k hk2]
  · have := mul_lt_mul_of_pos_right
      (lt_of_le_of_lt hMger (lt_add_one _) : 2 * v0 / (-(g * δ)) <
        ((airborneTicks v0 g δ : ℕ) : ℚ) + 1) hδ
    rw [ht] at this
    push_cast
    linarith
  · have := mul_lt_mul_of_pos_right hMltr hδ
    rw [show (2 * v0 / (-(g * δ)) + 1) * δ = 2 * v0 / (-(g * δ)) * δ + δ by ring,
      ht] at this
    push_cast
    linarith

/-- C2 witness: the amended jump round-trip theorem instantiated at the
code's values `v0 = 8`, `gravity = -20` and tick `delta = 0.1`. -/
theorem jump_round_trip_amended_witness :
    (0:ℚ) < 8 ∧ (-20:ℚ) < 0 ∧ (0:ℚ) < 1/10 ∧
      (((updatePlayer (-20) (1/10))^[airborneTicks 8 (-20) (1/10) + 1]
          ⟨0, 8, true, .jump⟩ = ⟨0, 0, false, .run⟩)
        ∧ (∀ k : ℕ, 1 ≤ k → k ≤ airborneTicks 8 (-20) (1/10) →
            ((updatePlayer (-20) (1/10))^[k] ⟨0, 8, true, .jump⟩).isJumping = true)
        ∧ -2 * 8 / (-20:ℚ) < ((airborneTicks 8 (-20) (1/10) + 1 : ℕ) : ℚ) * (1/10)
        ∧ ((airborneTicks 8 (-20) (1/10) + 1 : ℕ) : ℚ) * (1/10) <
            -2 * 8 / (-20:ℚ) + 2 * (1/10)) :=
  ⟨by norm_num, by norm_num, by norm_num,
    jump_round_trip_amended 8 (-20) (1/10) .jump (by norm_num) (by norm_num) (by norm_num)⟩

/-! ## Animation sequencer (GameCanvas.js `playAndResetAnimation` /
`processQueue`, lines 194-220) and restart (lines 118-184)

The deferred `setTimeout` completion steps are part of the state: each
`processQueue` dequeue schedules one pending completion step carrying the
dequeued entry's `onComplete` callback, and firing a timer executes the
earliest pending step (completion steps expire in scheduling order).
`restartGame` clears the queue and the busy flag and resets the player
flags, but — exactly like the source, which never calls `clearTimeout` —
it does not cancel pending completion steps. -/

structure PlayerFlags where
  isJumping : Bool
  isRolling : Bool
  isSliding : Bool
deriving DecidableEq

/-- The `onComplete` callbacks occurring in the source: the roll entry's
callback clears `isSliding` and `isRolling` (GameCanvas.js lines
317-320); the jump entry has none. -/
inductive Callback
  | rollDone
deriving DecidableEq

def runCallback : Callback → PlayerFlags → PlayerFlags
  | .rollDone, f => { f with isSliding := false, isRolling := false }

structure QueueEntry where
  animationName : AnimName
  duration : ℕ
  onComplete : Option Callback
deriving DecidableEq

structure SeqState where
  animationQueue : List QueueEntry
  isAnimating : Bool
  pending : List (Option Callback)
  flags : PlayerFlags
  currentAnim : AnimName
  log : List AnimName
deriving DecidableEq

def initialSeqState : SeqState :=
  ⟨[], false, [], ⟨false, false, false⟩, .run, []⟩

/-- GameCanvas.js `processQueue` (lines 201-220): if already animating or
the queue is empty, return; else dequeue the head, mark busy, play its
animation, and schedule (via `setTimeout`) its completion step. -/
def processQueue (s : SeqState) : SeqState :=
  match s.isAnimating, s.animationQueue with
  | false, e :: rest =>
    { s with
      animationQueue := rest
      isAnimating := true
      currentAnim := e.animationName
      log := s.log ++ [e.animationName]
      pending := s.pending ++ [e.onComplete] }
  | _, _ => s

/-- GameCanvas.js `playAndResetAnimation` (lines 194-198): push the
request to the queue and trigger processing. -/
def playAndResetAnimation (name : AnimName) (duration : ℕ) (cb : Option Callback)
    (s : SeqState) : SeqState :=
  processQueue { s with animationQueue := s.animationQueue ++ [⟨name, duration, cb⟩] }

/-- The body of the `setTimeout` callback scheduled by `processQueue`
(lines 214-219): run `onComplete` if present, play the run animation,
clear the busy flag, and recurse into `processQueue`. A fire with no
pending step is a no-op. -/
def fireTimer (s : SeqState) : SeqState :=
  match s.pending with
  | [] => s
  | cb :: rest =>
    let f := match cb with
      | some c => runCallback c s.flags
      | none => s.flags
    processQueue
      { s with
        pending := rest
        flags := f
        currentAnim := .run
        log := s.log ++ [.run]
        isAnimating := false }

/-- GameCanvas.js `handleKeyDown` ArrowDown (lines 311-327): start a roll
when neither rolling nor jumping: set `isRolling`, enqueue
`roll(1190)` with the sliding-reset `onComplete`, set `isSliding`. -/
def handleArrowDown (s : SeqState) : SeqState :=
  if !s.flags.isRolling && !s.flags.isJumping then
    let s1 := { s with flags := { s.flags with isRolling := true } }
    let s2 := playAndResetAnimation .roll 1190 (some .rollDone) s1
    { s2 with flags := { s2.flags with isSliding := true } }
  else s

/-- GameCanvas.js `restartGame` (lines 118-184), sequencer-relevant part:
clear the animation queue and the busy flag (lines 131-132), reset the
player flags (lines 139-144) and play the run animation (line 146). No
`clearTimeout` is issued, so pending completion steps survive. -/
def restartGame (s : SeqState) : SeqState :=
  { s with
    animationQueue := []
    isAnimating := false
    flags := ⟨false, false, false⟩
    currentAnim := .run
    log := s.log ++ [.run] }

/-- C4: the code violates the claim. Start a roll, restart mid-roll, then
start a fresh roll: the completion timer scheduled for the pre-restart
roll was never cancelled, and when it fires it executes against the
post-reset state — running the stale `onComplete` (clearing the new
roll's `isRolling`/`isSliding` flags), reverting the in-flight new roll's
animation to run, and clearing the busy flag while the new roll's own
completion step is still outstanding. -/
theorem restart_leaks_stale_completion :
    ((handleArrowDown (restartGame (handleArrowDown initialSeqState))).isAnimating = true)
    ∧ ((handleArrowDown (restartGame (handleArrowDown initialSeqState))).flags.isRolling
        = true)
    ∧ ((handleArrowDown (restartGame (handleArrowDown initialSeqState))).pending =
        [some .rollDone, some .rollDone])
    ∧ (fireTimer (handleArrowDown (restartGame (handleArrowDown initialSeqState))) =
        ⟨[], false, [some .rollDone], ⟨false, false, false⟩, .run,
          [.roll, .run, .roll, .run]⟩) := by
  decide

inductive SeqEvent
  | enq (name : AnimName) (duration : ℕ) (cb : Option Callback)
  | timer

def seqStep (s : SeqState) : SeqEvent → SeqState
  | .enq n d cb => playAndResetAnimation n d cb s
  | .timer => fireTimer s

/-- The sequencer state after a list of enqueue/timer events from the
initial idle state. -/
def runSeq (es : List SeqEvent) : SeqState := es.foldl seqStep initialSeqState

/-- The one-in-flight invariant: exactly one completion step is scheduled
while an animation is playing, none while idle. -/
def seqInv (s : SeqState) : Prop :=
  s.pending.length = if s.isAnimating then 1 else 0

lemma seqInv_processQueue (s : SeqState) (h : seqInv s) : seqInv (processQueue s) := by
  simp only [seqInv] at h ⊢
  cases hb : s.isAnimating with
  | true =>
    rw [hb] at h
    simp only [processQueue, hb]
    simpa using h
  | false =>
    rw [hb] at h
    cases hq : s.animationQueue with
    | nil =>
      simp only [processQueue, hb, hq]
      simpa using h
    | cons e rest =>
      simp only [processQueue, hb, hq]
      simp at h
      simp [h]

lemma seqInv_seqStep (s : SeqState) (e : SeqEvent) (h : seqInv s) :
    seqInv (seqStep s e) := by
  cases e with
  | enq n d cb =>
    simp only [seqStep, playAndResetAnimation]
    apply seqInv_processQueue
    simpa [seqInv] using h
  | timer =>
    simp only [seqStep, fireTimer]
    cases hp : s.pending with
    | nil => simpa [seqInv] using h
    | cons cb rest =>
      simp only [seqInv, hp] at h
      cases hbb : s.isAnimating with
      | false =>
        rw [hbb] at h
        simp at h
      | true =>
        rw [hbb] at h
        simp at h
        have hrest : rest = [] := by
          cases rest with
          | nil => rfl
          | cons a t => simp at h
        apply seqInv_processQueue
        simp [seqInv, hrest]

lemma seqInv_foldl (es : List SeqEvent) :
    ∀ s : SeqState, seqInv s → seqInv (es.foldl seqStep s) := by
  induction es with
  | nil => intro s h; exact h
  | cons e rest ih =>
    intro s h
    exact ih (seqStep s e) (seqInv_seqStep s e h)

/-- C8: the sequencer keeps at most one non-idle animation in flight (one
scheduled completion step exactly while busy, for every event sequence),
serves requests in FIFO order, and resumes the run animation after every
transient animation. Concretely, enqueuing `jump(800)` then `roll(1190)`
plays jump immediately, leaves roll queued until jump's completion timer
fires, then plays roll, and resumes run after each of the two. -/
theorem animation_sequencer_fifo :
    (∀ es : List SeqEvent,
      (runSeq es).pending.length = if (runSeq es).isAnimating then 1 else 0)
    ∧ ((runSeq [.enq .jump 800 none]).log = [.jump])
    ∧ ((runSeq [.enq .jump 800 none, .enq .roll 1190 (some .rollDone)]).log = [.jump])
    ∧ ((runSeq [.enq .jump 800 none, .enq .roll 1190 (some .rollDone)]).animationQueue
        = [⟨.roll, 1190, some .rollDone⟩])
    ∧ ((runSeq [.enq .jump 800 none, .enq .roll 1190 (some .rollDone), .timer]).log
        = [.jump, .run, .roll])
    ∧ ((runSeq [.enq .jump 800 none, .enq .roll 1190 (some .rollDone), .timer,
        .timer]).log = [.jump, .run, .roll, .run]) := by
  refine ⟨?_, by decide, by decide, by decide, by decide, by decide⟩
  intro es
  exact seqInv_foldl es initialSeqState (by simp [seqInv, initialSeqState])

end StreetRun
